import Mathlib

/-!
Verification development for the r3bl-rs-utils TUI core: the markdown inline
parser (`src/tui/src/tui/md_parser/parser_element.rs`) and the editor engine
render/apply API (`src/tui/src/tui/editor/editor_engine/editor_engine_api.rs`).

Strings are embedded as `List Char`.  All markdown delimiters are ASCII, so the
byte-level behaviour of the Rust `&str` parsers coincides with this char-level
model.  The nom combinators used by the source (`tag`, `is_not`, `delimited`,
`alt`, `map`, `pair`, `preceded`, `not`, `anychar`, `many1`, `recognize`) are
embedded below with the semantics of nom's `complete` variants and nom's
default `Error` type, for which `alt` reports the error of its last
alternative and `many1` forwards the error of the first application.
-/

/-- Error kinds surfaced by the embedded nom combinators, mirroring
`nom::error::ErrorKind` values observed in the source and its tests. -/
inductive ErrorKind where
  | Tag
  | IsNot
  | Not
  | Eof
  | Many1
deriving DecidableEq, Repr

/-- A nom parse error: the remaining input at the failure point and the kind,
mirroring `nom::error::Error { input, code }`. -/
structure NomError where
  input : List Char
  kind : ErrorKind
deriving DecidableEq, Repr

/-- Embedding of `nom::IResult<&str, A>`: a function from input to either an
error or `(remaining_input, output)`. -/
abbrev ParserFn (α : Type) := List Char → Except NomError (List Char × α)

instance {ε α : Type} [DecidableEq ε] [DecidableEq α] : DecidableEq (Except ε α) := fun x y =>
  match x, y with
  | .error e₁, .error e₂ =>
    if h : e₁ = e₂ then isTrue (by rw [h]) else isFalse (by intro hh; cases hh; exact h rfl)
  | .error _, .ok _ => isFalse (fun h => Except.noConfusion h)
  | .ok _, .error _ => isFalse (fun h => Except.noConfusion h)
  | .ok a₁, .ok a₂ =>
    if h : a₁ = a₂ then isTrue (by rw [h]) else isFalse (by intro hh; cases hh; exact h rfl)

/-- Embedding of `nom::bytes::complete::tag`: consume the literal `t` or fail
with `ErrorKind::Tag` on the whole input. -/
def tag (t : List Char) : ParserFn (List Char) := fun input =>
  if t.isPrefixOf input then .ok (input.drop t.length, t)
  else .error ⟨input, .Tag⟩

/-- Embedding of `nom::bytes::complete::is_not`: consume the longest nonempty
run of characters not occurring in `set`; fail with `ErrorKind::IsNot` when
that run is empty (empty input, or first char in `set`). -/
def isNot (set : List Char) : ParserFn (List Char) := fun input =>
  if (input.takeWhile (fun c => !(set.contains c))).isEmpty then .error ⟨input, .IsNot⟩
  else .ok (input.drop (input.takeWhile (fun c => !(set.contains c))).length,
            input.takeWhile (fun c => !(set.contains c)))

/-- Embedding of `nom::combinator::map`. -/
def pmap {α β : Type} (p : ParserFn α) (f : α → β) : ParserFn β := fun input =>
  match p input with
  | .ok (rest, a) => .ok (rest, f a)
  | .error e => .error e

/-- Embedding of a two-branch `nom::branch::alt` with nom's default error
type: the second branch's error is reported when both fail.  The source's
n-ary `alt` tuples are right-nested chains of this combinator, which yields
nom's behaviour of reporting the last alternative's error. -/
def alt2 {α : Type} (p q : ParserFn α) : ParserFn α := fun input =>
  match p input with
  | .ok res => .ok res
  | .error _ => q input

/-- Embedding of `nom::sequence::pair`. -/
def pairP {α β : Type} (p : ParserFn α) (q : ParserFn β) : ParserFn (α × β) := fun input =>
  match p input with
  | .error e => .error e
  | .ok (rest₁, a) =>
    match q rest₁ with
    | .error e => .error e
    | .ok (rest₂, b) => .ok (rest₂, (a, b))

/-- Embedding of `nom::sequence::delimited`: run `a`, then `b`, then `c`,
returning `b`'s output. -/
def delimited {α β γ : Type} (a : ParserFn α) (b : ParserFn β) (c : ParserFn γ) :
    ParserFn β := fun input =>
  match a input with
  | .error e => .error e
  | .ok (rest₁, _) =>
    match b rest₁ with
    | .error e => .error e
    | .ok (rest₂, out) =>
      match c rest₂ with
      | .error e => .error e
      | .ok (rest₃, _) => .ok (rest₃, out)

/-- Embedding of `nom::sequence::preceded`: run `p`, discard its output, then
run `q`. -/
def preceded {α β : Type} (p : ParserFn α) (q : ParserFn β) : ParserFn β := fun input =>
  match p input with
  | .error e => .error e
  | .ok (rest, _) => q rest

/-- Embedding of `nom::combinator::not`: succeed consuming nothing when `p`
fails, and fail with `ErrorKind::Not` when `p` succeeds. -/
def pnot {α : Type} (p : ParserFn α) : ParserFn Unit := fun input =>
  match p input with
  | .ok _ => .error ⟨input, .Not⟩
  | .error _ => .ok (input, ())

/-- Embedding of `nom::character::complete::anychar`: consume one character,
failing with `ErrorKind::Eof` on empty input. -/
def anychar : ParserFn Char := fun input =>
  match input with
  | [] => .error ⟨[], .Eof⟩
  | c :: rest => .ok (rest, c)

/-- Loop of the `many1` embedding, mirroring nom's accumulation loop: stop on
the first failure, and error with `ErrorKind::Many1` if an iteration consumes
nothing.  The fuel argument bounds the iteration count; since every parser
`many1` is applied to in this file consumes at least one character on success,
a fuel of the remaining input length is sufficient (the loop exits on the
parser's failure or on exhausting the input first). -/
def many1Go {α : Type} (p : ParserFn α) :
    Nat → List Char → List α → Except NomError (List Char × List α)
  | 0, input, acc => .ok (input, acc)
  | fuel + 1, input, acc =>
    match p input with
    | .error _ => .ok (input, acc)
    | .ok (rest, a) =>
      if rest = input then .error ⟨input, .Many1⟩
      else many1Go p fuel rest (acc ++ [a])

/-- Embedding of `nom::multi::many1`: at least one application of `p`; the
first application's error is forwarded (nom's default `Error::append` keeps
the inner error). -/
def many1 {α : Type} (p : ParserFn α) : ParserFn (List α) := fun input =>
  match p input with
  | .error e => .error e
  | .ok (rest, a) => many1Go p rest.length rest [a]

/-- Embedding of `nom::combinator::recognize`: run `p` and return the consumed
prefix of the input (nom computes it by offset; all parsers in this file
return suffixes of their input, for which this `take` is that offset slice). -/
def recognize {α : Type} (p : ParserFn α) : ParserFn (List Char) := fun input =>
  match p input with
  | .ok (rest, _) => .ok (rest, input.take (input.length - rest.length))
  | .error e => .error e

/-- Modelled from the spec: delimiter constant `BITALIC_1 = "***"` (the
md_parser constants module is not among the provided source files). -/
def BITALIC_1 : List Char := "***".toList

/-- Modelled from the spec: delimiter constant `BITALIC_2 = "___"`. -/
def BITALIC_2 : List Char := "___".toList

/-- Modelled from the spec: delimiter constant `BOLD_1 = "**"`. -/
def BOLD_1 : List Char := "**".toList

/-- Modelled from the spec: delimiter constant `BOLD_2 = "__"`. -/
def BOLD_2 : List Char := "__".toList

/-- Modelled from the spec: delimiter constant `ITALIC_1 = "*"`. -/
def ITALIC_1 : List Char := "*".toList

/-- Modelled from the spec: delimiter constant `ITALIC_2 = "_"`. -/
def ITALIC_2 : List Char := "_".toList

/-- Modelled from the spec: delimiter constant `BACK_TICK`. -/
def BACK_TICK : List Char := "`".toList

/-- Modelled from the spec: delimiter constant `LEFT_BRACKET = "["`. -/
def LEFT_BRACKET : List Char := "[".toList

/-- Modelled from the spec: delimiter constant `RIGHT_BRACKET = "]"`. -/
def RIGHT_BRACKET : List Char := "]".toList

/-- Modelled from the spec: delimiter constant `LEFT_PARENTHESIS = "("`. -/
def LEFT_PARENTHESIS : List Char := "(".toList

/-- Modelled from the spec: delimiter constant `RIGHT_PARENTHESIS = ")"`. -/
def RIGHT_PARENTHESIS : List Char := ")".toList

/-- Modelled from the spec: delimiter constant `LEFT_IMAGE = "!["`. -/
def LEFT_IMAGE : List Char := "![".toList

/-- Modelled from the spec: delimiter constant `RIGHT_IMAGE = "]"`. -/
def RIGHT_IMAGE : List Char := "]".toList

/-- Modelled from the spec: delimiter constant `CHECKED = "[x]"`. -/
def CHECKED : List Char := "[x]".toList

/-- Modelled from the spec: delimiter constant `UNCHECKED = "[ ]"`. -/
def UNCHECKED : List Char := "[ ]".toList

/-- Modelled from the spec: delimiter constant `NEW_LINE = "\n"`. -/
def NEW_LINE : List Char := "\n".toList

/-- Modelled from the spec: `HyperlinkData { text, url }`, constructed from a
pair `(text, url)` (the defining module is not among the provided sources). -/
structure HyperlinkData where
  text : List Char
  url : List Char
deriving DecidableEq, Repr

/-- Modelled from the spec: the `MdLineFragment` tagged variant (the defining
module is not among the provided sources). -/
inductive MdLineFragment where
  | Plain (s : List Char)
  | Italic (s : List Char)
  | Bold (s : List Char)
  | BoldItalic (s : List Char)
  | InlineCode (s : List Char)
  | Link (h : HyperlinkData)
  | Image (h : HyperlinkData)
  | Checkbox (b : Bool)
deriving DecidableEq, Repr

/-- Embedding of `parse_element_bold_italic` from `parser_element.rs`. -/
def parse_element_bold_italic : ParserFn (List Char) :=
  alt2
    (delimited (tag BITALIC_1) (isNot BITALIC_1) (tag BITALIC_1))
    (delimited (tag BITALIC_2) (isNot BITALIC_2) (tag BITALIC_2))

/-- Embedding of `parse_element_bold` from `parser_element.rs`. -/
def parse_element_bold : ParserFn (List Char) :=
  alt2
    (delimited (tag BOLD_1) (isNot BOLD_1) (tag BOLD_1))
    (delimited (tag BOLD_2) (isNot BOLD_2) (tag BOLD_2))

/-- Embedding of `parse_element_italic` from `parser_element.rs`. -/
def parse_element_italic : ParserFn (List Char) :=
  alt2
    (delimited (tag ITALIC_1) (isNot ITALIC_1) (tag ITALIC_1))
    (delimited (tag ITALIC_2) (isNot ITALIC_2) (tag ITALIC_2))

/-- Embedding of `parse_element_code` from `parser_element.rs`. -/
def parse_element_code : ParserFn (List Char) :=
  delimited (tag BACK_TICK) (isNot BACK_TICK) (tag BACK_TICK)

/-- Embedding of `parse_element_link` from `parser_element.rs`. -/
def parse_element_link : ParserFn HyperlinkData := fun input =>
  match pairP
      (delimited (tag LEFT_BRACKET) (isNot RIGHT_BRACKET) (tag RIGHT_BRACKET))
      (delimited (tag LEFT_PARENTHESIS) (isNot RIGHT_PARENTHESIS) (tag RIGHT_PARENTHESIS))
      input with
  | .ok (rest, (t, u)) => .ok (rest, HyperlinkData.mk t u)
  | .error e => .error e

/-- Embedding of `parse_element_checkbox` from `parser_element.rs`. -/
def parse_element_checkbox : ParserFn Bool :=
  alt2 (pmap (tag CHECKED) (fun _ => true)) (pmap (tag UNCHECKED) (fun _ => false))

/-- Embedding of `parse_element_image` from `parser_element.rs`. -/
def parse_element_image : ParserFn HyperlinkData := fun input =>
  match pairP
      (delimited (tag LEFT_IMAGE) (isNot RIGHT_IMAGE) (tag RIGHT_IMAGE))
      (delimited (tag LEFT_PARENTHESIS) (isNot RIGHT_PARENTHESIS) (tag RIGHT_PARENTHESIS))
      input with
  | .ok (rest, (t, u)) => .ok (rest, HyperlinkData.mk t u)
  | .error e => .error e

/-- The `alt` over start tags inside `parse_element_plaintext`, in source
order. -/
def startTags : ParserFn (List Char) :=
  alt2 (tag BITALIC_1)
    (alt2 (tag BITALIC_2)
      (alt2 (tag BOLD_1)
        (alt2 (tag BOLD_2)
          (alt2 (tag ITALIC_1)
            (alt2 (tag ITALIC_2)
              (alt2 (tag BACK_TICK)
                (alt2 (tag LEFT_BRACKET)
                  (alt2 (tag LEFT_IMAGE) (tag NEW_LINE)))))))))

/-- Embedding of `parse_element_plaintext` from `parser_element.rs`:
`recognize(many1(preceded(not(alt(tags)), anychar)))`. -/
def parse_element_plaintext : ParserFn (List Char) :=
  recognize (many1 (preceded (pnot startTags) anychar))

/-- Embedding of `parse_element_markdown_inline` from `parser_element.rs`: the `alt` over
the eight fragment parsers, each mapped into its `MdLineFragment` variant, in
source order. -/
def parse_element_markdown_inline : ParserFn MdLineFragment :=
  alt2 (pmap parse_element_italic MdLineFragment.Italic)
    (alt2 (pmap parse_element_bold MdLineFragment.Bold)
      (alt2 (pmap parse_element_bold_italic MdLineFragment.BoldItalic)
        (alt2 (pmap parse_element_code MdLineFragment.InlineCode)
          (alt2 (pmap parse_element_image MdLineFragment.Image)
            (alt2 (pmap parse_element_link MdLineFragment.Link)
              (alt2 (pmap parse_element_checkbox MdLineFragment.Checkbox)
                (pmap parse_element_plaintext MdLineFragment.Plain)))))))

/-- Modelled from the spec: the dispatcher tries the parsers in the precedence
order italic, bold, bold_italic, code, image, link, checkbox, plaintext and
returns the first success wrapped in the corresponding `MdLineFragment`
variant; it fails only if all eight fail. -/
def inlineSpecDispatch : ParserFn MdLineFragment := fun input =>
  match parse_element_italic input with
  | .ok (rest, s) => .ok (rest, MdLineFragment.Italic s)
  | .error _ =>
  match parse_element_bold input with
  | .ok (rest, s) => .ok (rest, MdLineFragment.Bold s)
  | .error _ =>
  match parse_element_bold_italic input with
  | .ok (rest, s) => .ok (rest, MdLineFragment.BoldItalic s)
  | .error _ =>
  match parse_element_code input with
  | .ok (rest, s) => .ok (rest, MdLineFragment.InlineCode s)
  | .error _ =>
  match parse_element_image input with
  | .ok (rest, h) => .ok (rest, MdLineFragment.Image h)
  | .error _ =>
  match parse_element_link input with
  | .ok (rest, h) => .ok (rest, MdLineFragment.Link h)
  | .error _ =>
  match parse_element_checkbox input with
  | .ok (rest, b) => .ok (rest, MdLineFragment.Checkbox b)
  | .error _ =>
  match parse_element_plaintext input with
  | .ok (rest, s) => .ok (rest, MdLineFragment.Plain s)
  | .error e => .error e

/-- Repeated application of the inline dispatcher: collect, for each step, the
consumed segment of the input together with the produced fragment, stopping at
the first failure.  The fuel `input.length + 1` is sufficient because every
successful dispatch consumes at least one character (proved below). -/
def runInlineGo : Nat → List Char → List (List Char × MdLineFragment) × List Char
  | 0, input => ([], input)
  | fuel + 1, input =>
    match parse_element_markdown_inline input with
    | .error _ => ([], input)
    | .ok (rest, frag) =>
      let res := runInlineGo fuel rest
      ((input.take (input.length - rest.length), frag) :: res.1, res.2)

/-- Repeatedly apply `parse_element_markdown_inline` to the remaining input
until it fails, returning the per-step consumed segments with their fragments
and the final remaining input. -/
def runInline (input : List Char) : List (List Char × MdLineFragment) × List Char :=
  runInlineGo (input.length + 1) input

/-- The text slice carried by a fragment: the body slice for the delimited and
plain variants, text and url for link and image, nothing for a checkbox. -/
def fragText : MdLineFragment → List Char
  | .Plain s => s
  | .Italic s => s
  | .Bold s => s
  | .BoldItalic s => s
  | .InlineCode s => s
  | .Link h => h.text ++ h.url
  | .Image h => h.text ++ h.url
  | .Checkbox _ => []

/-!
Editor engine embedding, from
`src/tui/src/tui/editor/editor_engine/editor_engine_api.rs` and
`src/tui/src/tui/editor/engine/editor_engine.rs`.

`ChUnit` positional arithmetic is embedded over `Nat`.  A grapheme cluster is
embedded as a `List Char` (`Cluster`), and a `UnicodeString` as the ordered
list of its grapheme-cluster segments.  The syntect syntax set, theme, and
highlighter are an external crate; the chain "look up a syntax reference for
the file extension, then highlight the line" behind
`try_get_syntect_highlighted_line` is abstracted as a `Highlighter` function
parameter.
-/

/-- A grapheme-cluster segment of a `UnicodeString`. -/
abbrev Cluster := List Char

/-- Embedding of `Position { col_index, row_index }` in grapheme units. -/
structure Position where
  col_index : Nat
  row_index : Nat
deriving DecidableEq, Repr

/-- Embedding of `Size { col_count, row_count }`. -/
structure Size where
  col_count : Nat
  row_count : Nat
deriving DecidableEq, Repr

/-- The one `ANSIBasicColor` variant used by the specified render paths. -/
inductive ANSIBasicColor where
  | Red
deriving DecidableEq, Repr

/-- The `TuiColor` variant used by the specified render paths. -/
inductive TuiColor where
  | Basic (c : ANSIBasicColor)
deriving DecidableEq, Repr

/-- The fields of `Style` that the specified render paths construct: a
foreground color and the reverse attribute. -/
structure Style where
  color_fg : Option TuiColor
  reverse : Bool
deriving DecidableEq, Repr

/-- The style built by `style! { attrib: [reverse] }` in `render_caret`. -/
def styleReverse : Style := ⟨none, true⟩

/-- The style built by `style! { color_fg: TuiColor::Basic(ANSIBasicColor::Red) }`
in `render_empty_state`. -/
def styleRedFg : Style := ⟨some (TuiColor.Basic ANSIBasicColor.Red), false⟩

/-- Embedding of `FlexBoxId`, embedded as a number. -/
abbrev FlexBoxId := Nat

/-- Embedding of `EditorEngineFlexBox` from `editor_engine.rs`: the subset of `FlexBox`
fields the editor engine uses. -/
structure EditorEngineFlexBox where
  id : FlexBoxId
  style_adjusted_origin_pos : Position
  style_adjusted_bounds_size : Size
  maybe_computed_style : Option Style
deriving DecidableEq, Repr

/-- Embedding of `EditorEngineFlexBox::get_computed_style`. -/
def EditorEngineFlexBox.get_computed_style (b : EditorEngineFlexBox) : Option Style :=
  b.maybe_computed_style

/-- Embedding of `EditorEngineConfigOptions` from `editor_engine.rs`. -/
structure EditorEngineConfigOptions where
  multiline : Bool
  syntax_highlight : Bool
deriving DecidableEq, Repr

/-- Embedding of `EditorEngine` from `editor_engine.rs`; the `syntax_set` and `theme`
fields are external syntect resources represented by the abstract
`Highlighter` parameter of the render functions. -/
structure EditorEngine where
  current_box : EditorEngineFlexBox
  config_options : EditorEngineConfigOptions
deriving DecidableEq, Repr

/-- Modelled from the spec: `EditorBuffer` holds `lines` (each a
`UnicodeString`, i.e. a list of grapheme clusters), the `caret`, and the
`scroll_offset` (the defining module is not among the provided sources).  The
`file_extension` is subsumed by the abstract `Highlighter`. -/
structure EditorBuffer where
  lines : List (List Cluster)
  caret : Position
  scroll_offset : Position
deriving DecidableEq, Repr

/-- Modelled from the spec: `EditorBuffer::get_caret(CaretKind::Raw)` is the
caret relative to the viewport, `caret − scroll_offset`. -/
def get_caret_raw (buf : EditorBuffer) : Position :=
  ⟨buf.caret.col_index - buf.scroll_offset.col_index,
   buf.caret.row_index - buf.scroll_offset.row_index⟩

/-- Modelled from the spec: `string_at_caret` returns the grapheme cluster
under the caret, or `None` if the caret is past the end of the line. -/
def string_at_caret (buf : EditorBuffer) : Option Cluster :=
  match buf.lines.get? buf.caret.row_index with
  | some line => line.get? buf.caret.col_index
  | none => none

/-- Modelled from the spec: `EditorBuffer::is_empty()` is true iff there are
no lines or a single empty line. -/
def EditorBuffer.is_empty (buf : EditorBuffer) : Bool :=
  match buf.lines with
  | [] => true
  | [l] => l.isEmpty
  | _ => false

/-- Embedding of `DEFAULT_CURSOR_CHAR` from `misc_types.rs`. -/
def DEFAULT_CURSOR_CHAR : Char := '▒'

/-- The render operations constructed by the specified render paths (a subset
of the `RenderOp` variants). -/
inductive RenderOp where
  | MoveCursorPositionRelTo (origin : Position) (rel : Position)
  | ApplyColors (style : Option Style)
  | PaintTextWithAttributes (text : List Char) (style : Option Style)
  | ResetColor
deriving DecidableEq, Repr

/-- Embedding of `ZOrder` of the render pipeline. -/
inductive ZOrder where
  | Deferred
  | Normal
  | Glass
  | Caret
deriving DecidableEq, Repr

/-- A render pipeline: `RenderOps` lists keyed by the z-order they were pushed
at, in push order. -/
abbrev RenderPipeline := List (ZOrder × List RenderOp)

/-- The focus registry access `component_registry.has_focus.does_id_have_focus`,
abstracted as a predicate on box ids. -/
abbrev HasFocus := FlexBoxId → Bool

/-- The external syntect highlight of one line: `None` when no syntax
reference is found for the buffer's file extension or highlighting fails,
otherwise the styled spans of the line. -/
abbrev Highlighter := List Cluster → Option (List (Style × List Cluster))

/-- Embedding of `try_get_syntect_highlighted_line` from `editor_engine_api.rs`: `None`
when syntax highlighting is disabled, otherwise the external highlighter's
result. -/
def try_get_syntect_highlighted_line (enabled : Bool) (hi : Highlighter)
    (line : List Cluster) : Option (List (Style × List Cluster)) :=
  if enabled then hi line else none

/-- Modelled from the spec: `UnicodeString` clip by
`(start_grapheme, max_graphemes)` returning a sub-string. -/
def clipLine (line : List Cluster) (start maxCols : Nat) : List Cluster :=
  (line.drop start).take maxCols

/-- Concatenate grapheme clusters back into text. -/
def joinClusters (l : List Cluster) : List Char := l.flatten

/-- Loop of the spec-modelled span clip: walk the spans with their running
start column `off`, intersect each with the window
`[colStart, colStart + maxCols)`, drop spans fully outside and truncate the
partially overlapping ones at grapheme boundaries, preserving styles. -/
def clipSpansGo : List (Style × List Cluster) → Nat → Nat → Nat →
    List (Style × List Cluster)
  | [], _, _, _ => []
  | (st, txt) :: rest, off, colStart, maxCols =>
    let lo := max off colStart
    let hi := min (off + txt.length) (colStart + maxCols)
    let piece : List (Style × List Cluster) :=
      if lo < hi then [(st, (txt.drop (lo - off)).take (hi - lo))] else []
    piece ++ clipSpansGo rest (off + txt.length) colStart maxCols

/-- Modelled from the spec: `StyledTexts::clip(col_start, max_cols)` (the
defining module is not among the provided sources). -/
def clipSpans (spans : List (Style × List Cluster)) (colStart maxCols : Nat) :
    List (Style × List Cluster) :=
  clipSpansGo spans 0 colStart maxCols

/-- Modelled from the spec: `StyledTexts::render_into` emits, for each span,
`ApplyColors(style)`, a paint of the span text with that style, and
`ResetColor`. -/
def render_into (spans : List (Style × List Cluster)) : List RenderOp :=
  spans.flatMap fun p =>
    [RenderOp.ApplyColors (some p.1),
     RenderOp.PaintTextWithAttributes (joinClusters p.2) (some p.1),
     RenderOp.ResetColor]

/-- Embedding of `render_line_with_syntax_highlight` from `editor_engine_api.rs`: clip the
highlighted spans to the scroll column window and render them into the ops. -/
def render_line_with_syntax_highlight (hlLine : List (Style × List Cluster))
    (buf : EditorBuffer) (maxCols : Nat) (ops : List RenderOp) : List RenderOp :=
  ops ++ render_into (clipSpans hlLine buf.scroll_offset.col_index maxCols)

/-- Embedding of `render_line_no_syntax_highlight` from `editor_engine_api.rs`: clip the
line to `[scroll_offset.col .. max cols]` and emit `ApplyColors` and a paint
of the clipped text, both with the box's computed style. -/
def render_line_no_syntax_highlight (line : List Cluster) (buf : EditorBuffer)
    (maxCols : Nat) (eng : EditorEngine) (ops : List RenderOp) : List RenderOp :=
  let truncated := clipLine line buf.scroll_offset.col_index maxCols
  ops ++
    [RenderOp.ApplyColors eng.current_box.get_computed_style,
     RenderOp.PaintTextWithAttributes (joinClusters truncated)
       eng.current_box.get_computed_style]

/-- Embedding of `render_single_line` from `editor_engine_api.rs`: move the cursor to the
line's viewport row, render the line with or without syntax highlighting, and
emit `ResetColor`. -/
def render_single_line (hi : Highlighter) (enabled : Bool) (eng : EditorEngine)
    (buf : EditorBuffer) (row_index : Nat) (line : List Cluster) (maxCols : Nat)
    (ops : List RenderOp) : List RenderOp :=
  let ops₁ := ops ++
    [RenderOp.MoveCursorPositionRelTo eng.current_box.style_adjusted_origin_pos
      ⟨0, row_index⟩]
  let ops₂ :=
    match try_get_syntect_highlighted_line enabled hi line with
    | some hlLine => render_line_with_syntax_highlight hlLine buf maxCols ops₁
    | none => render_line_no_syntax_highlight line buf maxCols eng ops₁
  ops₂ ++ [RenderOp.ResetColor]

/-- The loop of `render_content`: iterate the lines from the scroll row with
their enumeration index, breaking as soon as the index exceeds
`max_display_row_count`. -/
def render_content_loop (hi : Highlighter) (enabled : Bool) (eng : EditorEngine)
    (buf : EditorBuffer) (maxCols maxRows : Nat) :
    Nat → List (List Cluster) → List RenderOp → List RenderOp
  | _, [], ops => ops
  | idx, line :: rest, ops =>
    if idx > maxRows then ops
    else
      render_content_loop hi enabled eng buf maxCols maxRows (idx + 1) rest
        (render_single_line hi enabled eng buf idx line maxCols ops)

/-- Embedding of `render_content` from `editor_engine_api.rs`: paint each buffer line from
`scroll_offset.row_index` on, clipped to the box bounds. -/
def render_content (hi : Highlighter) (eng : EditorEngine) (buf : EditorBuffer)
    (ops : List RenderOp) : List RenderOp :=
  render_content_loop hi eng.config_options.syntax_highlight eng buf
    eng.current_box.style_adjusted_bounds_size.col_count
    eng.current_box.style_adjusted_bounds_size.row_count
    0 (buf.lines.drop buf.scroll_offset.row_index) ops

/-- Embedding of `render_caret` from `editor_engine_api.rs`: when the engine's box id holds
focus, move to the raw caret, paint the grapheme cluster at the caret (or
`DEFAULT_CURSOR_CHAR` when there is none) with the reverse attribute, move to
the raw caret again, and reset colors. -/
def render_caret (hf : HasFocus) (eng : EditorEngine) (buf : EditorBuffer)
    (ops : List RenderOp) : List RenderOp :=
  if hf eng.current_box.id then
    let str_at_caret : List Char :=
      match string_at_caret buf with
      | some seg => seg
      | none => [DEFAULT_CURSOR_CHAR]
    ops ++
      [RenderOp.MoveCursorPositionRelTo eng.current_box.style_adjusted_origin_pos
        (get_caret_raw buf),
       RenderOp.PaintTextWithAttributes str_at_caret (some styleReverse),
       RenderOp.MoveCursorPositionRelTo eng.current_box.style_adjusted_origin_pos
        (get_caret_raw buf),
       RenderOp.ResetColor]
  else ops

/-- Modelled from the spec: `Position::add_row_with_bounds(value, max)` adds
`value` to the row, bounded by `max` ("one row below, bounded by the viewport
height"). -/
def add_row_with_bounds (p : Position) (value bound : Nat) : Position :=
  ⟨p.col_index, min (p.row_index + value) bound⟩

/-- Embedding of `render_empty_state` from `editor_engine_api.rs`: paint
`"No content added"` in red at the box origin at `ZOrder::Normal`, and, when
the box id holds focus, paint the eyes emoji one row below bounded by the
viewport rows. -/
def render_empty_state (hf : HasFocus) (eng : EditorEngine) : RenderPipeline :=
  let content_cursor_pos : Position := ⟨0, 0⟩
  let pipeline : RenderPipeline :=
    [(ZOrder.Normal,
      [RenderOp.MoveCursorPositionRelTo eng.current_box.style_adjusted_origin_pos ⟨0, 0⟩,
       RenderOp.ApplyColors (some styleRedFg),
       RenderOp.PaintTextWithAttributes "No content added".toList none,
       RenderOp.ResetColor])]
  if hf eng.current_box.id then
    pipeline ++
      [(ZOrder.Normal,
        [RenderOp.MoveCursorPositionRelTo eng.current_box.style_adjusted_origin_pos
          (add_row_with_bounds content_cursor_pos 1
            eng.current_box.style_adjusted_bounds_size.row_count),
         RenderOp.PaintTextWithAttributes "👀".toList none,
         RenderOp.ResetColor])]
  else pipeline

/-- Embedding of `render_engine` from `editor_engine_api.rs`: snapshot the flex box into
`engine.current_box`; then either the empty-state pipeline, or content
followed by caret pushed at `ZOrder::Normal`.  Returns the updated engine
together with the pipeline. -/
def render_engine (hf : HasFocus) (hi : Highlighter) (eng : EditorEngine)
    (buf : EditorBuffer) (box : EditorEngineFlexBox) :
    EditorEngine × RenderPipeline :=
  let engine : EditorEngine := ⟨box, eng.config_options⟩
  if buf.is_empty then
    (engine, render_empty_state hf engine)
  else
    let render_ops : List RenderOp := []
    let render_ops := render_content hi engine buf render_ops
    let render_ops := render_caret hf engine buf render_ops
    (engine, [(ZOrder.Normal, render_ops)])

/-- Embedding of `EditorEngineApplyResponse` from `editor_engine_api.rs`. -/
inductive EditorEngineApplyResponse (T : Type) where
  | Applied (t : T)
  | NotApplied
deriving DecidableEq, Repr

/-- Embedding of `apply_event` from `editor_engine_api.rs`, over abstract event and buffer
types: convert the input event (`EditorEvent::try_from`, held abstract as
`tryFrom` since its module is not among the provided sources); on failure
return `NotApplied`, otherwise clone the buffer, apply the event to the clone
(`EditorEvent::apply_editor_event`, held abstract), and return `Applied` with
the new buffer.  The first component of the result is the caller's buffer as
observable after the call (the source takes it by shared reference and never
reassigns it). -/
def apply_event {IE EE Buf Eng : Type} (tryFrom : IE → Option EE)
    (apply_editor_event : Eng → Buf → EE → Buf) (editor_engine : Eng)
    (editor_buffer : Buf) (input_event : IE) :
    Buf × EditorEngineApplyResponse Buf :=
  match tryFrom input_event with
  | some editor_event =>
    let new_editor_buffer := editor_buffer
    (editor_buffer,
     .Applied (apply_editor_event editor_engine new_editor_buffer editor_event))
  | none => (editor_buffer, .NotApplied)

/-- Count of paint operations in an ops list. -/
def countPaint (ops : List RenderOp) : Nat :=
  ops.countP fun o =>
    match o with
    | RenderOp.PaintTextWithAttributes _ _ => true
    | _ => false

/-- Count of relative cursor moves in an ops list (content rendering emits
exactly one per rendered line). -/
def countMove (ops : List RenderOp) : Nat :=
  ops.countP fun o =>
    match o with
    | RenderOp.MoveCursorPositionRelTo _ _ => true
    | _ => false

/-- The number of paint ops `render_single_line` emits for one line: the
number of clipped spans on the highlight path, one on the fallback path. -/
def paintsOfLine (hi : Highlighter) (enabled : Bool) (buf : EditorBuffer)
    (maxCols : Nat) (line : List Cluster) : Nat :=
  match try_get_syntect_highlighted_line enabled hi line with
  | some hlLine => (clipSpans hlLine buf.scroll_offset.col_index maxCols).length
  | none => 1

/-- The characters that can begin one of the start-delimiters checked by
`parse_element_plaintext` (`!` begins `LEFT_IMAGE = "!["` only together with a
following `[`, which is itself in this list). -/
def delimChars : List Char := ['*', '_', '`', '[', '\n']

/-- On success the parser returns a suffix of its input, no longer than the
input. -/
def PKeeps {α : Type} (p : ParserFn α) : Prop :=
  ∀ input rest a, p input = .ok (rest, a) →
    rest.length ≤ input.length ∧ ∃ n, rest = input.drop n

/-- On success the parser returns a strictly shorter suffix of its input: at
least one character is consumed. -/
def PConsumes {α : Type} (p : ParserFn α) : Prop :=
  ∀ input rest a, p input = .ok (rest, a) →
    rest.length < input.length ∧ ∃ n, rest = input.drop n

example : parse_element_italic "*here is italic*".toList =
    .ok ([], "here is italic".toList) := by decide
example : parse_element_bold "**here is bold**".toList =
    .ok ([], "here is bold".toList) := by decide
example : parse_element_bold "****".toList =
    .error ⟨"****".toList, .Tag⟩ := by decide
example : parse_element_code "``".toList =
    .error ⟨"`".toList, .IsNot⟩ := by decide
example : parse_element_plaintext "oh my gosh![".toList =
    .ok ("![".toList, "oh my gosh".toList) := by decide
example : parse_element_plaintext "".toList = .error ⟨[], .Eof⟩ := by decide
example : parse_element_markdown_inline "\n".toList =
    .error ⟨"\n".toList, .Not⟩ := by decide
example : parse_element_markdown_inline "".toList = .error ⟨[], .Eof⟩ := by decide
example :
    parse_element_markdown_inline "here is some plaintext *but what if we italicize?".toList =
    .ok ("*but what if we italicize?".toList, .Plain "here is some plaintext ".toList) := by
  decide

/-! Helper lemmas: lists. -/

theorem mem_of_isPrefixOf {t u : List Char} (h : t.isPrefixOf u = true) :
    ∀ x ∈ t, x ∈ u := by
  induction t generalizing u with
  | nil => intro x hx; cases hx
  | cons a t ih =>
    cases u with
    | nil => simp [List.isPrefixOf] at h
    | cons b u' =>
      simp only [List.isPrefixOf, Bool.and_eq_true, beq_iff_eq] at h
      intro x hx
      cases hx with
      | head => exact h.1 ▸ List.mem_cons_self _ _
      | tail _ hx' => exact List.mem_cons_of_mem _ (ih h.2 x hx')

theorem length_le_of_isPrefixOf {t u : List Char} (h : t.isPrefixOf u = true) :
    t.length ≤ u.length := by
  induction t generalizing u with
  | nil => simp
  | cons a t ih =>
    cases u with
    | nil => simp [List.isPrefixOf] at h
    | cons b u' =>
      simp only [List.isPrefixOf, Bool.and_eq_true] at h
      have := ih h.2
      simp only [List.length_cons]
      omega

theorem isPrefixOf_append_self (t r : List Char) : t.isPrefixOf (t ++ r) = true := by
  induction t with
  | nil => simp [List.isPrefixOf]
  | cons a t ih => simp [List.isPrefixOf, ih]

theorem drop_len_append (t r : List Char) : (t ++ r).drop t.length = r := by
  induction t with
  | nil => simp
  | cons a t ih => simp [ih]

theorem takeWhile_append_stop (p : Char → Bool) (a : List Char) (x : Char)
    (r : List Char) (ha : ∀ c ∈ a, p c = true) (hx : p x = false) :
    (a ++ x :: r).takeWhile p = a := by
  induction a with
  | nil => simp [List.takeWhile, hx]
  | cons c a ih =>
    have hc : p c = true := ha c (List.mem_cons_self _ _)
    simp only [List.cons_append, List.takeWhile, hc]
    exact congrArg (c :: ·) (ih fun d hd => ha d (List.mem_cons_of_mem _ hd))

theorem drop_suffix_normal {i r : List Char} (h : ∃ n, r = i.drop n) :
    r = i.drop (i.length - r.length) := by
  obtain ⟨n, rfl⟩ := h
  by_cases hn : n ≤ i.length
  · have hl : (i.drop n).length = i.length - n := List.length_drop n i
    rw [hl]
    have : i.length - (i.length - n) = n := by omega
    rw [this]
  · have h₁ : i.drop n = [] := List.drop_eq_nil_of_le (by omega)
    have h₂ : i.drop i.length = [] := List.drop_length i
    rw [h₁]
    simp [h₂]

/-! Helper lemmas: consumption and suffix facts for the nom combinators. -/

theorem pkeeps_of_pconsumes {α : Type} {p : ParserFn α} (h : PConsumes p) : PKeeps p :=
  fun input rest a hok =>
    ⟨Nat.le_of_lt (h input rest a hok).1, (h input rest a hok).2⟩

theorem drop_compose {i r₁ r₂ : List Char} (h₁ : ∃ n, r₁ = i.drop n)
    (h₂ : ∃ n, r₂ = r₁.drop n) : ∃ n, r₂ = i.drop n := by
  obtain ⟨n₁, rfl⟩ := h₁
  obtain ⟨n₂, rfl⟩ := h₂
  exact ⟨n₁ + n₂, List.drop_drop n₂ n₁ i⟩

theorem takeWhile_length_le (p : Char → Bool) (l : List Char) :
    (l.takeWhile p).length ≤ l.length := by
  induction l with
  | nil => simp
  | cons c l ih =>
    by_cases h : p c
    · simp only [List.takeWhile_cons, h, if_true, List.length_cons]
      omega
    · simp [List.takeWhile_cons, h]

theorem tag_consumes (t : List Char) (ht : t ≠ []) : PConsumes (tag t) := by
  intro input rest a h
  unfold tag at h
  split at h
  · next hpre =>
    injection h with h'
    injection h' with h₁ h₂
    subst h₁
    have hle : t.length ≤ input.length := length_le_of_isPrefixOf hpre
    have hpos : 1 ≤ t.length := by
      cases t with
      | nil => exact absurd rfl ht
      | cons _ _ => simp
    constructor
    · rw [List.length_drop]
      omega
    · exact ⟨t.length, rfl⟩
  · exact absurd h (by simp)

theorem isNot_consumes (set : List Char) : PConsumes (isNot set) := by
  intro input rest a h
  unfold isNot at h
  split at h
  · exact absurd h (by simp)
  · next hne =>
    injection h with h'
    injection h' with h₁ h₂
    subst h₁
    have hlen : (input.takeWhile (fun c => !(set.contains c))).length ≤ input.length :=
      takeWhile_length_le _ _
    have hpos : 1 ≤ (input.takeWhile (fun c => !(set.contains c))).length := by
      cases hmm : input.takeWhile (fun c => !(set.contains c)) with
      | nil => rw [hmm] at hne; simp at hne
      | cons _ _ => simp [hmm]
    constructor
    · rw [List.length_drop]
      omega
    · exact ⟨_, rfl⟩

theorem anychar_consumes : PConsumes anychar := by
  intro input rest a h
  cases input with
  | nil => exact absurd h (by simp [anychar])
  | cons c cs =>
    unfold anychar at h
    injection h with h'
    injection h' with h₁ h₂
    subst h₁
    exact ⟨by simp, 1, by simp⟩

theorem pmap_consumes {α β : Type} {p : ParserFn α} (f : α → β) (hp : PConsumes p) :
    PConsumes (pmap p f) := by
  intro input rest b h
  unfold pmap at h
  cases hpi : p input with
  | ok v =>
    obtain ⟨r, a⟩ := v
    rw [hpi] at h
    dsimp only at h
    injection h with h'
    injection h' with h₁ h₂
    subst h₁
    exact hp input r a hpi
  | error e => rw [hpi] at h; exact absurd h (by simp)

theorem alt2_consumes {α : Type} {p q : ParserFn α} (hp : PConsumes p)
    (hq : PConsumes q) : PConsumes (alt2 p q) := by
  intro input rest a h
  unfold alt2 at h
  cases hpi : p input with
  | ok v =>
    obtain ⟨r, b⟩ := v
    rw [hpi] at h
    dsimp only at h
    injection h with h'
    injection h' with h₁ h₂
    subst h₁
    exact hp input r b hpi
  | error e => rw [hpi] at h; exact hq input rest a h

theorem pairP_consumes {α β : Type} {p : ParserFn α} {q : ParserFn β}
    (hp : PConsumes p) (hq : PKeeps q) : PConsumes (pairP p q) := by
  intro input rest ab h
  unfold pairP at h
  cases hpi : p input with
  | error e => rw [hpi] at h; exact absurd h (by simp)
  | ok v =>
    obtain ⟨r₁, a⟩ := v
    rw [hpi] at h
    dsimp only at h
    cases hqi : q r₁ with
    | error e => rw [hqi] at h; exact absurd h (by simp)
    | ok w =>
      obtain ⟨r₂, b⟩ := w
      rw [hqi] at h
      dsimp only at h
      injection h with h'
      injection h' with h₁ h₂
      subst h₁
      obtain ⟨hlt₁, hs₁⟩ := hp input r₁ a hpi
      obtain ⟨hle₂, hs₂⟩ := hq r₁ r₂ b hqi
      exact ⟨by omega, drop_compose hs₁ hs₂⟩

theorem delimited_consumes {α β γ : Type} {a : ParserFn α} {b : ParserFn β}
    {c : ParserFn γ} (ha : PConsumes a) (hb : PKeeps b) (hc : PKeeps c) :
    PConsumes (delimited a b c) := by
  intro input rest out h
  unfold delimited at h
  cases hai : a input with
  | error e => rw [hai] at h; exact absurd h (by simp)
  | ok v =>
    obtain ⟨r₁, x⟩ := v
    rw [hai] at h
    dsimp only at h
    cases hbi : b r₁ with
    | error e => rw [hbi] at h; exact absurd h (by simp)
    | ok w =>
      obtain ⟨r₂, y⟩ := w
      rw [hbi] at h
      dsimp only at h
      cases hci : c r₂ with
      | error e => rw [hci] at h; exact absurd h (by simp)
      | ok u =>
        obtain ⟨r₃, z⟩ := u
        rw [hci] at h
        dsimp only at h
        injection h with h'
        injection h' with h₁ h₂
        subst h₁
        obtain ⟨hlt₁, hs₁⟩ := ha input r₁ x hai
        obtain ⟨hle₂, hs₂⟩ := hb r₁ r₂ y hbi
        obtain ⟨hle₃, hs₃⟩ := hc r₂ r₃ z hci
        exact ⟨by omega, drop_compose (drop_compose hs₁ hs₂) hs₃⟩

theorem preceded_consumes {α β : Type} {p : ParserFn α} {q : ParserFn β}
    (hp : PKeeps p) (hq : PConsumes q) : PConsumes (preceded p q) := by
  intro input rest b h
  unfold preceded at h
  cases hpi : p input with
  | error e => rw [hpi] at h; exact absurd h (by simp)
  | ok v =>
    obtain ⟨r₁, x⟩ := v
    rw [hpi] at h
    dsimp only at h
    obtain ⟨hle₁, hs₁⟩ := hp input r₁ x hpi
    obtain ⟨hlt₂, hs₂⟩ := hq r₁ rest b h
    exact ⟨by omega, drop_compose hs₁ hs₂⟩

theorem pnot_keeps {α : Type} (p : ParserFn α) : PKeeps (pnot p) := by
  intro input rest u h
  unfold pnot at h
  cases hpi : p input with
  | ok v => rw [hpi] at h; exact absurd h (by simp)
  | error e =>
    rw [hpi] at h
    injection h with h'
    injection h' with h₁ h₂
    subst h₁
    exact ⟨Nat.le_refl _, 0, by simp⟩

theorem many1Go_keeps {α : Type} {p : ParserFn α} (hp : PKeeps p) :
    ∀ fuel input acc rest out,
      many1Go p fuel input acc = .ok (rest, out) →
      rest.length ≤ input.length ∧ ∃ n, rest = input.drop n := by
  intro fuel
  induction fuel with
  | zero =>
    intro input acc rest out h
    unfold many1Go at h
    injection h with h'
    injection h' with h₁ h₂
    subst h₁
    exact ⟨Nat.le_refl _, 0, by simp⟩
  | succ fuel ih =>
    intro input acc rest out h
    unfold many1Go at h
    cases hpi : p input with
    | error e =>
      rw [hpi] at h
      dsimp only at h
      injection h with h'
      injection h' with h₁ h₂
      subst h₁
      exact ⟨Nat.le_refl _, 0, by simp⟩
    | ok v =>
      obtain ⟨r₁, a⟩ := v
      rw [hpi] at h
      dsimp only at h
      by_cases heq : r₁ = input
      · rw [if_pos heq] at h; exact absurd h (by simp)
      · rw [if_neg heq] at h
        obtain ⟨hle₁, hs₁⟩ := hp input r₁ a hpi
        obtain ⟨hle₂, hs₂⟩ := ih r₁ (acc ++ [a]) rest out h
        exact ⟨by omega, drop_compose hs₁ hs₂⟩

theorem many1_consumes {α : Type} {p : ParserFn α} (hp : PConsumes p) :
    PConsumes (many1 p) := by
  intro input rest out h
  unfold many1 at h
  cases hpi : p input with
  | error e => rw [hpi] at h; exact absurd h (by simp)
  | ok v =>
    obtain ⟨r₁, a⟩ := v
    rw [hpi] at h
    dsimp only at h
    obtain ⟨hlt₁, hs₁⟩ := hp input r₁ a hpi
    obtain ⟨hle₂, hs₂⟩ :=
      many1Go_keeps (pkeeps_of_pconsumes hp) r₁.length r₁ [a] rest out h
    exact ⟨by omega, drop_compose hs₁ hs₂⟩

theorem recognize_consumes {α : Type} {p : ParserFn α} (hp : PConsumes p) :
    PConsumes (recognize p) := by
  intro input rest out h
  unfold recognize at h
  cases hpi : p input with
  | error e => rw [hpi] at h; exact absurd h (by simp)
  | ok v =>
    obtain ⟨r₁, a⟩ := v
    rw [hpi] at h
    dsimp only at h
    injection h with h'
    injection h' with h₁ h₂
    subst h₁
    exact hp input r₁ a hpi

theorem inline_consumes : PConsumes parse_element_markdown_inline := by
  have htagBI1 : PConsumes (tag BITALIC_1) := tag_consumes _ (by decide)
  have htagBI2 : PConsumes (tag BITALIC_2) := tag_consumes _ (by decide)
  have htagB1 : PConsumes (tag BOLD_1) := tag_consumes _ (by decide)
  have htagB2 : PConsumes (tag BOLD_2) := tag_consumes _ (by decide)
  have htagI1 : PConsumes (tag ITALIC_1) := tag_consumes _ (by decide)
  have htagI2 : PConsumes (tag ITALIC_2) := tag_consumes _ (by decide)
  have htagBT : PConsumes (tag BACK_TICK) := tag_consumes _ (by decide)
  have htagLB : PConsumes (tag LEFT_BRACKET) := tag_consumes _ (by decide)
  have htagRB : PConsumes (tag RIGHT_BRACKET) := tag_consumes _ (by decide)
  have htagLP : PConsumes (tag LEFT_PARENTHESIS) := tag_consumes _ (by decide)
  have htagRP : PConsumes (tag RIGHT_PARENTHESIS) := tag_consumes _ (by decide)
  have htagLI : PConsumes (tag LEFT_IMAGE) := tag_consumes _ (by decide)
  have htagRI : PConsumes (tag RIGHT_IMAGE) := tag_consumes _ (by decide)
  have htagCH : PConsumes (tag CHECKED) := tag_consumes _ (by decide)
  have htagUC : PConsumes (tag UNCHECKED) := tag_consumes _ (by decide)
  have hitalic : PConsumes parse_element_italic :=
    alt2_consumes
      (delimited_consumes htagI1 (pkeeps_of_pconsumes (isNot_consumes _))
        (pkeeps_of_pconsumes htagI1))
      (delimited_consumes htagI2 (pkeeps_of_pconsumes (isNot_consumes _))
        (pkeeps_of_pconsumes htagI2))
  have hbold : PConsumes parse_element_bold :=
    alt2_consumes
      (delimited_consumes htagB1 (pkeeps_of_pconsumes (isNot_consumes _))
        (pkeeps_of_pconsumes htagB1))
      (delimited_consumes htagB2 (pkeeps_of_pconsumes (isNot_consumes _))
        (pkeeps_of_pconsumes htagB2))
  have hbitalic : PConsumes parse_element_bold_italic :=
    alt2_consumes
      (delimited_consumes htagBI1 (pkeeps_of_pconsumes (isNot_consumes _))
        (pkeeps_of_pconsumes htagBI1))
      (delimited_consumes htagBI2 (pkeeps_of_pconsumes (isNot_consumes _))
        (pkeeps_of_pconsumes htagBI2))
  have hcode : PConsumes parse_element_code :=
    delimited_consumes htagBT (pkeeps_of_pconsumes (isNot_consumes _))
      (pkeeps_of_pconsumes htagBT)
  have hlinkPair :
      PConsumes (pairP
        (delimited (tag LEFT_BRACKET) (isNot RIGHT_BRACKET) (tag RIGHT_BRACKET))
        (delimited (tag LEFT_PARENTHESIS) (isNot RIGHT_PARENTHESIS)
          (tag RIGHT_PARENTHESIS))) :=
    pairP_consumes
      (delimited_consumes htagLB (pkeeps_of_pconsumes (isNot_consumes _))
        (pkeeps_of_pconsumes htagRB))
      (pkeeps_of_pconsumes
        (delimited_consumes htagLP (pkeeps_of_pconsumes (isNot_consumes _))
          (pkeeps_of_pconsumes htagRP)))
  have hlink : PConsumes parse_element_link := by
    intro input rest out h
    unfold parse_element_link at h
    cases hpi : pairP
        (delimited (tag LEFT_BRACKET) (isNot RIGHT_BRACKET) (tag RIGHT_BRACKET))
        (delimited (tag LEFT_PARENTHESIS) (isNot RIGHT_PARENTHESIS)
          (tag RIGHT_PARENTHESIS)) input with
    | error e => rw [hpi] at h; exact absurd h (by simp)
    | ok v =>
      obtain ⟨r, tu⟩ := v
      obtain ⟨t, u⟩ := tu
      rw [hpi] at h
      dsimp only at h
      injection h with h'
      injection h' with h₁ h₂
      subst h₁
      exact hlinkPair input r (t, u) hpi
  have himagePair :
      PConsumes (pairP
        (delimited (tag LEFT_IMAGE) (isNot RIGHT_IMAGE) (tag RIGHT_IMAGE))
        (delimited (tag LEFT_PARENTHESIS) (isNot RIGHT_PARENTHESIS)
          (tag RIGHT_PARENTHESIS))) :=
    pairP_consumes
      (delimited_consumes htagLI (pkeeps_of_pconsumes (isNot_consumes _))
        (pkeeps_of_pconsumes htagRI))
      (pkeeps_of_pconsumes
        (delimited_consumes htagLP (pkeeps_of_pconsumes (isNot_consumes _))
          (pkeeps_of_pconsumes htagRP)))
  have himage : PConsumes parse_element_image := by
    intro input rest out h
    unfold parse_element_image at h
    cases hpi : pairP
        (delimited (tag LEFT_IMAGE) (isNot RIGHT_IMAGE) (tag RIGHT_IMAGE))
        (delimited (tag LEFT_PARENTHESIS) (isNot RIGHT_PARENTHESIS)
          (tag RIGHT_PARENTHESIS)) input with
    | error e => rw [hpi] at h; exact absurd h (by simp)
    | ok v =>
      obtain ⟨r, tu⟩ := v
      obtain ⟨t, u⟩ := tu
      rw [hpi] at h
      dsimp only at h
      injection h with h'
      injection h' with h₁ h₂
      subst h₁
      exact himagePair input r (t, u) hpi
  have hcheckbox : PConsumes parse_element_checkbox :=
    alt2_consumes (pmap_consumes _ htagCH) (pmap_consumes _ htagUC)
  have hplaintext : PConsumes parse_element_plaintext :=
    recognize_consumes (many1_consumes
      (preceded_consumes (pnot_keeps _) anychar_consumes))
  exact alt2_consumes (pmap_consumes _ hitalic)
    (alt2_consumes (pmap_consumes _ hbold)
      (alt2_consumes (pmap_consumes _ hbitalic)
        (alt2_consumes (pmap_consumes _ hcode)
          (alt2_consumes (pmap_consumes _ himage)
            (alt2_consumes (pmap_consumes _ hlink)
              (alt2_consumes (pmap_consumes _ hcheckbox)
                (pmap_consumes _ hplaintext)))))))

/-! Helper lemmas: `parse_element_plaintext` characterization. -/

theorem tag_err (t u : List Char) (h : t.isPrefixOf u = false) :
    tag t u = .error ⟨u, .Tag⟩ := by
  simp [tag, h]

theorem isPrefixOf_false_of_no_delim {t u : List Char} {d : Char} (hd : d ∈ t)
    (hdc : d ∈ delimChars) (hs : ∀ c ∈ u, c ∉ delimChars) :
    t.isPrefixOf u = false := by
  cases hpre : t.isPrefixOf u with
  | false => rfl
  | true => exact absurd hdc (hs d (mem_of_isPrefixOf hpre d hd))

theorem startTags_err (u : List Char) (hs : ∀ c ∈ u, c ∉ delimChars) :
    startTags u = .error ⟨u, .Tag⟩ := by
  have h₁ := tag_err BITALIC_1 u
    (isPrefixOf_false_of_no_delim (d := '*') (by decide) (by decide) hs)
  have h₂ := tag_err BITALIC_2 u
    (isPrefixOf_false_of_no_delim (d := '_') (by decide) (by decide) hs)
  have h₃ := tag_err BOLD_1 u
    (isPrefixOf_false_of_no_delim (d := '*') (by decide) (by decide) hs)
  have h₄ := tag_err BOLD_2 u
    (isPrefixOf_false_of_no_delim (d := '_') (by decide) (by decide) hs)
  have h₅ := tag_err ITALIC_1 u
    (isPrefixOf_false_of_no_delim (d := '*') (by decide) (by decide) hs)
  have h₆ := tag_err ITALIC_2 u
    (isPrefixOf_false_of_no_delim (d := '_') (by decide) (by decide) hs)
  have h₇ := tag_err BACK_TICK u
    (isPrefixOf_false_of_no_delim (d := '`') (by decide) (by decide) hs)
  have h₈ := tag_err LEFT_BRACKET u
    (isPrefixOf_false_of_no_delim (d := '[') (by decide) (by decide) hs)
  have h₉ := tag_err LEFT_IMAGE u
    (isPrefixOf_false_of_no_delim (d := '[') (by decide) (by decide) hs)
  have h₁₀ := tag_err NEW_LINE u
    (isPrefixOf_false_of_no_delim (d := '\n') (by decide) (by decide) hs)
  simp only [startTags, alt2, h₁, h₂, h₃, h₄, h₅, h₆, h₇, h₈, h₉, h₁₀]

theorem plainChar_ok (c : Char) (rest : List Char)
    (h : startTags (c :: rest) = .error ⟨c :: rest, .Tag⟩) :
    preceded (pnot startTags) anychar (c :: rest) = .ok (rest, c) := by
  simp [preceded, pnot, h, anychar]

theorem many1Go_plain_all :
    ∀ (i : List Char), (∀ c ∈ i, c ∉ delimChars) →
    ∀ (acc : List Char) (fuel : Nat), i.length ≤ fuel →
    many1Go (preceded (pnot startTags) anychar) fuel i acc = .ok ([], acc ++ i) := by
  intro i
  induction i with
  | nil =>
    intro _ acc fuel _
    cases fuel with
    | zero => simp [many1Go]
    | succ f =>
      have hp : preceded (pnot startTags) anychar [] = .error ⟨[], .Eof⟩ := by decide
      unfold many1Go
      rw [hp]
      simp
  | cons c t ih =>
    intro hs acc fuel hf
    cases fuel with
    | zero => simp at hf
    | succ f =>
      have hst : startTags (c :: t) = .error ⟨c :: t, .Tag⟩ := startTags_err _ hs
      have hp := plainChar_ok c t hst
      have hne : ¬(t = c :: t) := fun hteq => (List.cons_ne_self c t) hteq.symm
      unfold many1Go
      rw [hp]
      dsimp only
      rw [if_neg hne]
      have ht : ∀ d ∈ t, d ∉ delimChars := fun d hd =>
        hs d (List.mem_cons_of_mem _ hd)
      have hlen : t.length ≤ f := by
        simp only [List.length_cons] at hf
        omega
      rw [ih ht (acc ++ [c]) f hlen]
      simp

theorem plaintext_ok_all (s : List Char) (hne : s ≠ [])
    (hs : ∀ c ∈ s, c ∉ delimChars) :
    parse_element_plaintext s = .ok ([], s) := by
  cases s with
  | nil => exact absurd rfl hne
  | cons c t =>
    have hst : startTags (c :: t) = .error ⟨c :: t, .Tag⟩ := startTags_err _ hs
    have hp := plainChar_ok c t hst
    have ht : ∀ d ∈ t, d ∉ delimChars := fun d hd => hs d (List.mem_cons_of_mem _ hd)
    have hgo := many1Go_plain_all t ht [c] t.length (Nat.le_refl _)
    unfold parse_element_plaintext recognize many1
    rw [hp]
    dsimp only
    rw [hgo]
    simp

theorem plaintext_err_not (s : List Char) (h : (startTags s).isOk = true) :
    parse_element_plaintext s = .error ⟨s, .Not⟩ := by
  cases hst : startTags s with
  | error e => rw [hst] at h; simp [Except.isOk, Except.toBool] at h
  | ok v =>
    simp [parse_element_plaintext, recognize, many1, preceded, pnot, hst]

/-! Helper lemmas: repeated application of the inline dispatcher. -/

theorem runInlineGo_spec :
    ∀ (fuel : Nat) (i : List Char), i.length < fuel →
      ((runInlineGo fuel i).2 = [] ∨
        (parse_element_markdown_inline (runInlineGo fuel i).2).isOk = false)
      ∧ (runInlineGo fuel i).1.length ≤ i.length
      ∧ ((runInlineGo fuel i).1.map Prod.fst).flatten ++ (runInlineGo fuel i).2 = i := by
  intro fuel
  induction fuel with
  | zero => intro i hi; omega
  | succ fuel ih =>
    intro i hi
    cases hpi : parse_element_markdown_inline i with
    | error e =>
      have hstep : runInlineGo (fuel + 1) i = ([], i) := by
        unfold runInlineGo
        rw [hpi]
      rw [hstep]
      refine ⟨Or.inr ?_, by simp, by simp⟩
      rw [hpi]
      rfl
    | ok v =>
      obtain ⟨rest, frag⟩ := v
      have hstep : runInlineGo (fuel + 1) i =
          ((i.take (i.length - rest.length), frag) :: (runInlineGo fuel rest).1,
            (runInlineGo fuel rest).2) := by
        conv_lhs => unfold runInlineGo
        rw [hpi]
      obtain ⟨hlt, hsfx⟩ := inline_consumes i rest frag hpi
      have hrest : rest.length < fuel := by omega
      obtain ⟨ihTerm, ihLen, ihCat⟩ := ih rest hrest
      rw [hstep]
      refine ⟨ihTerm, ?_, ?_⟩
      · simp only [List.length_cons]
        omega
      · have hdrop : rest = i.drop (i.length - rest.length) := drop_suffix_normal hsfx
        simp only [List.map_cons, List.flatten_cons, List.append_assoc, ihCat]
        conv_rhs => rw [← List.take_append_drop (i.length - rest.length) i]
        rw [← hdrop]

/-! Claim theorems: markdown inline parser. -/

/-- C1: for every input, `parse_element_markdown_inline` tries the fragment
parsers in the order italic, bold, bold_italic, code, image, link, checkbox,
plaintext and returns the result of the first one that succeeds, wrapped in
the corresponding `MdLineFragment` variant (`Italic`, `Bold`, `BoldItalic`,
`InlineCode`, `Image`, `Link`, `Checkbox`, `Plain`); it fails only if all
eight fail.  Stated as extensional equality with the spec-worded
first-success cascade `inlineSpecDispatch`. -/
theorem c1_dispatcher_first_success (input : List Char) :
    parse_element_markdown_inline input = inlineSpecDispatch input := by
  unfold parse_element_markdown_inline inlineSpecDispatch alt2 pmap
  rcases parse_element_italic input with e₁ | ⟨r₁, s₁⟩ <;>
  rcases parse_element_bold input with e₂ | ⟨r₂, s₂⟩ <;>
  rcases parse_element_bold_italic input with e₃ | ⟨r₃, s₃⟩ <;>
  rcases parse_element_code input with e₄ | ⟨r₄, s₄⟩ <;>
  rcases parse_element_image input with e₅ | ⟨r₅, s₅⟩ <;>
  rcases parse_element_link input with e₆ | ⟨r₆, s₆⟩ <;>
  rcases parse_element_checkbox input with e₇ | ⟨r₇, s₇⟩ <;>
  rcases parse_element_plaintext input with e₈ | ⟨r₈, s₈⟩ <;> rfl

/-- C6: `parse_element_plaintext` consumes one or more characters as long as
the remaining input does not begin with a start-delimiter or newline: on any
nonempty input without delimiter characters it returns `Ok(("", s))`; on empty
input it fails with kind `Eof`; and on any input whose first position matches
a start-delimiter (i.e. the source's `alt` of start tags succeeds there) it
fails with kind `Not`. -/
theorem c6_plaintext_spec :
    (∀ s : List Char, s ≠ [] → (∀ c ∈ s, c ∉ delimChars) →
      parse_element_plaintext s = .ok ([], s))
    ∧ parse_element_plaintext [] = .error ⟨[], .Eof⟩
    ∧ (∀ s : List Char, (startTags s).isOk = true →
      parse_element_plaintext s = .error ⟨s, .Not⟩) :=
  ⟨plaintext_ok_all, by decide, plaintext_err_not⟩

/-- Witness for C6 at concrete inputs: a plaintext line, and a line starting
with the italic start-delimiter. -/
theorem c6_plaintext_spec_witness :
    parse_element_plaintext "here is plaintext!".toList =
      .ok ([], "here is plaintext!".toList)
    ∧ parse_element_plaintext "*here is italic*".toList =
      .error ⟨"*here is italic*".toList, .Not⟩ :=
  ⟨c6_plaintext_spec.1 _ (by decide) (by decide),
   c6_plaintext_spec.2.2 _ (by decide)⟩

/-- C7 counterexample: on input `"*a*"` repeated dispatch produces the single
fragment `Italic "a"`; the fragment texts drop the delimiters, so their
concatenation `"a"` is not the original string `"*a*"`. -/
theorem c7_concat_counterexample :
    runInline "*a*".toList = ([("*a*".toList, MdLineFragment.Italic "a".toList)], [])
    ∧ (((runInline "*a*".toList).1.map Prod.snd).map fragText).flatten ≠ "*a*".toList := by
  decide

/-- C7 (amended): repeatedly applying `parse_element_markdown_inline` to the
remaining input partitions any input into a finite sequence of parse steps
whose consumed segments concatenate, together with the final remaining input,
back to the original string (the fragment texts themselves omit the
delimiters, so they need not concatenate back to the original). -/
theorem c7_consumed_segments_concat (input : List Char) :
    ((runInline input).1.map Prod.fst).flatten ++ (runInline input).2 = input :=
  (runInlineGo_spec (input.length + 1) input (Nat.lt_succ_self _)).2.2

/-- C8 counterexample: `parse_element_bold "****"` (opening delimiter
immediately followed by the closing delimiter) fails with kind `Tag`, not
`IsNot`, matching the repository's own `test_parse_element_bold`: `alt`
reports the error of its last (`__`) alternative, masking the inner `IsNot`. -/
theorem c8_bold_empty_counterexample :
    parse_element_bold "****".toList = .error ⟨"****".toList, .Tag⟩
    ∧ ErrorKind.Tag ≠ ErrorKind.IsNot := by
  decide

/-- C8 (amended): an empty body between the opening and closing delimiters
fails the body parser with `IsNot`, and this kind is surfaced whenever the
delimiter belongs to the parser's only or last alternative (code, link,
image, and the underscore forms of italic, bold and bold_italic); for the
asterisk forms of the `alt`-wrapped parsers the reported error is the last
alternative's `Tag` error instead. -/
theorem c8_empty_body_error_kinds :
    parse_element_code "``".toList = .error ⟨"`".toList, .IsNot⟩
    ∧ parse_element_italic "__".toList = .error ⟨"_".toList, .IsNot⟩
    ∧ parse_element_bold "____".toList = .error ⟨"__".toList, .IsNot⟩
    ∧ parse_element_bold_italic "______".toList = .error ⟨"___".toList, .IsNot⟩
    ∧ parse_element_link "[](u)".toList = .error ⟨"](u)".toList, .IsNot⟩
    ∧ parse_element_image "![](u)".toList = .error ⟨"](u)".toList, .IsNot⟩
    ∧ parse_element_italic "**".toList = .error ⟨"**".toList, .Tag⟩
    ∧ parse_element_bold "****".toList = .error ⟨"****".toList, .Tag⟩
    ∧ parse_element_bold_italic "******".toList = .error ⟨"******".toList, .Tag⟩ := by
  decide

/-- C10: whenever `parse_element_markdown_inline` succeeds, the remaining
input is a strictly shorter suffix of the input (at least one character is
consumed); therefore repeatedly applying the dispatcher reaches empty input
or a failure in finitely many steps — `runInline` stops at empty input or at
an input the dispatcher rejects, after at most `input.length` fragments. -/
theorem c10_progress_and_termination :
    (∀ input rest frag,
      parse_element_markdown_inline input = .ok (rest, frag) →
      rest.length < input.length ∧ rest = input.drop (input.length - rest.length))
    ∧ (∀ input : List Char,
        (runInline input).2 = [] ∨
        (parse_element_markdown_inline (runInline input).2).isOk = false)
    ∧ (∀ input : List Char, (runInline input).1.length ≤ input.length) := by
  refine ⟨?_, ?_, ?_⟩
  · intro input rest frag h
    obtain ⟨hlt, hsfx⟩ := inline_consumes input rest frag h
    exact ⟨hlt, drop_suffix_normal hsfx⟩
  · intro input
    exact (runInlineGo_spec (input.length + 1) input (Nat.lt_succ_self _)).1
  · intro input
    exact (runInlineGo_spec (input.length + 1) input (Nat.lt_succ_self _)).2.1

/-- Witness for C10 at the concrete input `"*a*"`, on which the dispatcher
succeeds leaving the empty remainder. -/
theorem c10_progress_and_termination_witness :
    ([] : List Char).length < "*a*".toList.length
    ∧ ([] : List Char) = "*a*".toList.drop ("*a*".toList.length - ([] : List Char).length) :=
  c10_progress_and_termination.1 "*a*".toList [] (MdLineFragment.Italic "a".toList)
    (by decide)

/-! Claim theorems: apply_event. -/

/-- C2: `apply_event` returns `NotApplied` when the `InputEvent` cannot be
converted to an `EditorEvent`, and otherwise returns `Applied` carrying a new
buffer produced by applying the event to a clone of the caller's buffer; in
both cases the caller's buffer (the first component of the result, as
observable after the call) is unchanged.  Stated over the abstract conversion
and application functions, hence for every behaviour of the modules outside
the provided sources. -/
theorem c2_apply_event_clone_semantics {IE EE Buf Eng : Type}
    (tryFrom : IE → Option EE) (aee : Eng → Buf → EE → Buf) (eng : Eng)
    (buf : Buf) (ie : IE) :
    (apply_event tryFrom aee eng buf ie).1 = buf
    ∧ (tryFrom ie = none →
        (apply_event tryFrom aee eng buf ie).2 = .NotApplied)
    ∧ (∀ ev, tryFrom ie = some ev →
        (apply_event tryFrom aee eng buf ie).2 = .Applied (aee eng buf ev)) := by
  unfold apply_event
  rcases h : tryFrom ie with _ | ev <;> simp [h]

/-- Witness for C2 at a concrete instantiation: a conversion that accepts
`true` and rejects `false`, and an application that increments the buffer. -/
theorem c2_apply_event_clone_semantics_witness :
    (apply_event (fun b : Bool => if b then some () else none)
      (fun (_ : Unit) (n : Nat) (_ : Unit) => n + 1) () 5 false).2 =
      EditorEngineApplyResponse.NotApplied
    ∧ (apply_event (fun b : Bool => if b then some () else none)
      (fun (_ : Unit) (n : Nat) (_ : Unit) => n + 1) () 5 true).2 =
      EditorEngineApplyResponse.Applied 6
    ∧ (apply_event (fun b : Bool => if b then some () else none)
      (fun (_ : Unit) (n : Nat) (_ : Unit) => n + 1) () 5 false).1 = 5 :=
  ⟨(c2_apply_event_clone_semantics _ _ _ _ _).2.1 rfl,
   (c2_apply_event_clone_semantics _ _ _ _ _).2.2 () rfl,
   (c2_apply_event_clone_semantics _ _ _ _ _).1⟩

/-! Helper lemmas: the link parser on well-formed inputs. -/

theorem tag_single (x : Char) (r : List Char) : tag [x] (x :: r) = .ok (r, [x]) := by
  simp [tag, List.isPrefixOf]

theorem contains_singleton (x c : Char) : ([x] : List Char).contains c = (c == x) := by
  cases h : c == x <;> simp_all

theorem isEmpty_false_of_ne_nil {a : List Char} (ha : a ≠ []) : a.isEmpty = false := by
  cases a with
  | nil => exact absurd rfl ha
  | cons _ _ => rfl

theorem isNot_append_stop (set : List Char) (a : List Char) (x : Char)
    (r : List Char) (ha : a ≠ []) (hmem : ∀ c ∈ a, set.contains c = false)
    (hx : set.contains x = true) :
    isNot set (a ++ x :: r) = .ok (x :: r, a) := by
  have hmem' : ∀ c ∈ a, c ∉ set := fun c hc => by
    have h' := hmem c hc
    simpa using h'
  have hx' : x ∈ set := by simpa using hx
  have htw : (a ++ x :: r).takeWhile (fun c => !(set.contains c)) = a :=
    takeWhile_append_stop _ _ _ _ (fun c hc => by simp [hmem' c hc]) (by simp [hx'])
  unfold isNot
  rw [htw, isEmpty_false_of_ne_nil ha]
  simp [drop_len_append]
/-- C9 (amended): for nonempty `a` without `]` and nonempty `b` without `)`,
`parse_element_link ("[" ++ a ++ "](" ++ b ++ ")")` succeeds with empty
remaining input and `HyperlinkData { text := a, url := b }`. -/
theorem c9_link_roundtrip (a b : List Char) (ha₁ : a ≠ []) (ha₂ : ']' ∉ a)
    (hb₁ : b ≠ []) (hb₂ : ')' ∉ b) :
    parse_element_link
      (LEFT_BRACKET ++ a ++ RIGHT_BRACKET ++ LEFT_PARENTHESIS ++ b ++ RIGHT_PARENTHESIS) =
    .ok ([], ⟨a, b⟩) := by
  have hshape :
      LEFT_BRACKET ++ a ++ RIGHT_BRACKET ++ LEFT_PARENTHESIS ++ b ++ RIGHT_PARENTHESIS
        = '[' :: (a ++ ']' :: '(' :: (b ++ [')'])) := by
    simp [LEFT_BRACKET, RIGHT_BRACKET, LEFT_PARENTHESIS, RIGHT_PARENTHESIS]
  rw [hshape]
  have hmema : ∀ c ∈ a, ([']'] : List Char).contains c = false := by
    intro c hc
    rw [contains_singleton]
    exact beq_eq_false_iff_ne.mpr (fun he => ha₂ (he ▸ hc))
  have hmemb : ∀ c ∈ b, ([')'] : List Char).contains c = false := by
    intro c hc
    rw [contains_singleton]
    exact beq_eq_false_iff_ne.mpr (fun he => hb₂ (he ▸ hc))
  have h1 : tag LEFT_BRACKET ('[' :: (a ++ ']' :: '(' :: (b ++ [')']))) =
      .ok (a ++ ']' :: '(' :: (b ++ [')']), ['[']) := tag_single '[' _
  have h2 : isNot RIGHT_BRACKET (a ++ ']' :: '(' :: (b ++ [')'])) =
      .ok (']' :: '(' :: (b ++ [')']), a) :=
    isNot_append_stop [']'] a ']' _ ha₁ hmema (by decide)
  have h3 : tag RIGHT_BRACKET (']' :: '(' :: (b ++ [')'])) =
      .ok ('(' :: (b ++ [')']), [']']) := tag_single ']' _
  have h4 : tag LEFT_PARENTHESIS ('(' :: (b ++ [')'])) =
      .ok (b ++ [')'], ['(']) := tag_single '(' _
  have h5 : isNot RIGHT_PARENTHESIS (b ++ [')']) = .ok ([')'], b) :=
    isNot_append_stop [')'] b ')' [] hb₁ hmemb (by decide)
  have h6 : tag RIGHT_PARENTHESIS ([')'] : List Char) = .ok ([], [')']) :=
    tag_single ')' []
  unfold parse_element_link pairP delimited
  rw [h1]
  dsimp only
  rw [h2]
  dsimp only
  rw [h3]
  dsimp only
  rw [h4]
  dsimp only
  rw [h5]
  dsimp only
  rw [h6]

/-- C9 counterexample: with `a = ""` (vacuously without `]`) and `b = "u"`
(without `)`), `parse_element_link "[](u)"` fails (`is_not` rejects the empty
text) instead of returning `Ok(("", {a, b}))` as the claim states for every
such `a` and `b`. -/
theorem c9_empty_text_counterexample :
    parse_element_link "[](u)".toList = .error ⟨"](u)".toList, .IsNot⟩
    ∧ ¬(parse_element_link "[](u)".toList = .ok ([], ⟨[], "u".toList⟩)) := by
  decide

/-- Witness for C9 at `a = "t"`, `b = "u"`. -/
theorem c9_link_roundtrip_witness :
    parse_element_link
      (LEFT_BRACKET ++ "t".toList ++ RIGHT_BRACKET ++ LEFT_PARENTHESIS ++
        "u".toList ++ RIGHT_PARENTHESIS) =
    .ok ([], ⟨"t".toList, "u".toList⟩) :=
  c9_link_roundtrip "t".toList "u".toList (by decide) (by decide) (by decide) (by decide)

/-! Helper lemmas: render op counting. -/

theorem countPaint_append (a b : List RenderOp) :
    countPaint (a ++ b) = countPaint a + countPaint b := by
  simp [countPaint, List.countP_append]

theorem countMove_append (a b : List RenderOp) :
    countMove (a ++ b) = countMove a + countMove b := by
  simp [countMove, List.countP_append]

theorem countPaint_render_into (spans : List (Style × List Cluster)) :
    countPaint (render_into spans) = spans.length := by
  induction spans with
  | nil => rfl
  | cons s rest ih =>
    simp only [render_into, List.flatMap_cons] at ih ⊢
    rw [countPaint_append, ih]
    have h3 : countPaint [RenderOp.ApplyColors (some s.1),
        RenderOp.PaintTextWithAttributes (joinClusters s.2) (some s.1),
        RenderOp.ResetColor] = 1 := rfl
    rw [h3, List.length_cons]
    omega

theorem countMove_render_into (spans : List (Style × List Cluster)) :
    countMove (render_into spans) = 0 := by
  induction spans with
  | nil => rfl
  | cons s rest ih =>
    simp only [render_into, List.flatMap_cons] at ih ⊢
    rw [countMove_append, ih]
    have h3 : countMove [RenderOp.ApplyColors (some s.1),
        RenderOp.PaintTextWithAttributes (joinClusters s.2) (some s.1),
        RenderOp.ResetColor] = 0 := rfl
    rw [h3]

theorem countPaint_single_line (hi : Highlighter) (enabled : Bool)
    (eng : EditorEngine) (buf : EditorBuffer) (idx : Nat) (line : List Cluster)
    (maxCols : Nat) (ops : List RenderOp) :
    countPaint (render_single_line hi enabled eng buf idx line maxCols ops)
      = countPaint ops + paintsOfLine hi enabled buf maxCols line := by
  unfold render_single_line paintsOfLine render_line_with_syntax_highlight
    render_line_no_syntax_highlight
  cases h : try_get_syntect_highlighted_line enabled hi line with
  | none =>
    simp only [countPaint_append]
    have h1 : countPaint [RenderOp.MoveCursorPositionRelTo
        eng.current_box.style_adjusted_origin_pos ⟨0, idx⟩] = 0 := rfl
    have h2 : countPaint [RenderOp.ResetColor] = 0 := rfl
    have h3 : countPaint
        [RenderOp.ApplyColors eng.current_box.get_computed_style,
         RenderOp.PaintTextWithAttributes
           (joinClusters (clipLine line buf.scroll_offset.col_index maxCols))
           eng.current_box.get_computed_style] = 1 := rfl
    omega
  | some hlLine =>
    simp only [countPaint_append, countPaint_render_into]
    have h1 : countPaint [RenderOp.MoveCursorPositionRelTo
        eng.current_box.style_adjusted_origin_pos ⟨0, idx⟩] = 0 := rfl
    have h2 : countPaint [RenderOp.ResetColor] = 0 := rfl
    omega

theorem countMove_single_line (hi : Highlighter) (enabled : Bool)
    (eng : EditorEngine) (buf : EditorBuffer) (idx : Nat) (line : List Cluster)
    (maxCols : Nat) (ops : List RenderOp) :
    countMove (render_single_line hi enabled eng buf idx line maxCols ops)
      = countMove ops + 1 := by
  unfold render_single_line render_line_with_syntax_highlight
    render_line_no_syntax_highlight
  cases h : try_get_syntect_highlighted_line enabled hi line with
  | none =>
    simp only [countMove_append]
    have h1 : countMove [RenderOp.MoveCursorPositionRelTo
        eng.current_box.style_adjusted_origin_pos ⟨0, idx⟩] = 1 := rfl
    have h2 : countMove [RenderOp.ResetColor] = 0 := rfl
    have h3 : countMove
        [RenderOp.ApplyColors eng.current_box.get_computed_style,
         RenderOp.PaintTextWithAttributes
           (joinClusters (clipLine line buf.scroll_offset.col_index maxCols))
           eng.current_box.get_computed_style] = 0 := rfl
    omega
  | some hlLine =>
    simp only [countMove_append, countMove_render_into]
    have h1 : countMove [RenderOp.MoveCursorPositionRelTo
        eng.current_box.style_adjusted_origin_pos ⟨0, idx⟩] = 1 := rfl
    have h2 : countMove [RenderOp.ResetColor] = 0 := rfl
    omega

theorem loop_paint_bound (hi : Highlighter) (enabled : Bool)
    (eng : EditorEngine) (buf : EditorBuffer) (maxCols maxRows S : Nat) :
    ∀ (rest : List (List Cluster)) (idx : Nat) (ops : List RenderOp),
      (∀ line ∈ rest, paintsOfLine hi enabled buf maxCols line ≤ S) →
      countPaint (render_content_loop hi enabled eng buf maxCols maxRows idx rest ops)
        ≤ countPaint ops + (maxRows + 1 - idx) * S := by
  intro rest
  induction rest with
  | nil =>
    intro idx ops _
    unfold render_content_loop
    exact Nat.le_add_right _ _
  | cons line rest ih =>
    intro idx ops hS
    unfold render_content_loop
    by_cases hidx : idx > maxRows
    · rw [if_pos hidx]
      exact Nat.le_add_right _ _
    · rw [if_neg hidx]
      have h1 := ih (idx + 1)
        (render_single_line hi enabled eng buf idx line maxCols ops)
        (fun l hl => hS l (List.mem_cons_of_mem _ hl))
      rw [countPaint_single_line] at h1
      have hpl : paintsOfLine hi enabled buf maxCols line ≤ S :=
        hS line (List.mem_cons_self _ _)
      have harith : maxRows + 1 - idx = (maxRows + 1 - (idx + 1)) + 1 := by omega
      refine le_trans h1 ?_
      rw [harith, Nat.succ_mul]
      calc countPaint ops + paintsOfLine hi enabled buf maxCols line
              + (maxRows + 1 - (idx + 1)) * S
          = countPaint ops + (paintsOfLine hi enabled buf maxCols line
              + (maxRows + 1 - (idx + 1)) * S) := by rw [Nat.add_assoc]
        _ ≤ countPaint ops + (S + (maxRows + 1 - (idx + 1)) * S) :=
            Nat.add_le_add_left (Nat.add_le_add_right hpl _) _
        _ = countPaint ops + ((maxRows + 1 - (idx + 1)) * S + S) := by
            rw [Nat.add_comm S]

theorem loop_move_bound (hi : Highlighter) (enabled : Bool)
    (eng : EditorEngine) (buf : EditorBuffer) (maxCols maxRows : Nat) :
    ∀ (rest : List (List Cluster)) (idx : Nat) (ops : List RenderOp),
      countMove (render_content_loop hi enabled eng buf maxCols maxRows idx rest ops)
        ≤ countMove ops + (maxRows + 1 - idx) := by
  intro rest
  induction rest with
  | nil =>
    intro idx ops
    unfold render_content_loop
    exact Nat.le_add_right _ _
  | cons line rest ih =>
    intro idx ops
    unfold render_content_loop
    by_cases hidx : idx > maxRows
    · rw [if_pos hidx]
      exact Nat.le_add_right _ _
    · rw [if_neg hidx]
      have h1 := ih (idx + 1)
        (render_single_line hi enabled eng buf idx line maxCols ops)
      rw [countMove_single_line] at h1
      refine le_trans h1 ?_
      omega

/-! Claim theorems: editor engine rendering. -/

/-- C3 counterexample: with viewport `max_rows = 1`, a three-line buffer,
scroll `(0,0)` and syntax highlighting disabled (so one span per line), the
content pass paints 2 lines and emits 2 paint ops, exceeding the claimed
bound `max_rows × spans_per_line = 1`: the source loop breaks only when the
enumeration index exceeds `max_display_row_count`, so it renders
`max_rows + 1` lines. -/
theorem c3_max_rows_counterexample :
    countPaint (render_content (fun _ => none)
      ⟨⟨0, ⟨0, 0⟩, ⟨10, 1⟩, none⟩, ⟨true, false⟩⟩
      ⟨[[['a']], [['b']], [['c']]], ⟨0, 0⟩, ⟨0, 0⟩⟩ []) = 2
    ∧ countMove (render_content (fun _ => none)
      ⟨⟨0, ⟨0, 0⟩, ⟨10, 1⟩, none⟩, ⟨true, false⟩⟩
      ⟨[[['a']], [['b']], [['c']]], ⟨0, 0⟩, ⟨0, 0⟩⟩ []) = 2
    ∧ ¬(2 ≤ 1 * 1) := by
  decide

/-- C3 (amended): when every line's span count is bounded by `S`, the content
pass emits at most `(max_rows + 1) × S` paint ops beyond those already in the
ops list, and renders at most `max_rows + 1` lines (one
`MoveCursorPositionRelTo` per rendered line); the source's loop
`if row_index > max_display_row_count break` admits indices `0..=max_rows`. -/
theorem c3_render_content_bounds (hi : Highlighter) (eng : EditorEngine)
    (buf : EditorBuffer) (S : Nat) (ops : List RenderOp)
    (hS : ∀ line ∈ buf.lines,
      paintsOfLine hi eng.config_options.syntax_highlight buf
        eng.current_box.style_adjusted_bounds_size.col_count line ≤ S) :
    countPaint (render_content hi eng buf ops)
      ≤ countPaint ops + (eng.current_box.style_adjusted_bounds_size.row_count + 1) * S
    ∧ countMove (render_content hi eng buf ops)
      ≤ countMove ops + (eng.current_box.style_adjusted_bounds_size.row_count + 1) := by
  unfold render_content
  constructor
  · have h := loop_paint_bound hi eng.config_options.syntax_highlight eng buf
      eng.current_box.style_adjusted_bounds_size.col_count
      eng.current_box.style_adjusted_bounds_size.row_count S
      (buf.lines.drop buf.scroll_offset.row_index) 0 ops
      (fun l hl => hS l (List.mem_of_mem_drop hl))
    simpa using h
  · have h := loop_move_bound hi eng.config_options.syntax_highlight eng buf
      eng.current_box.style_adjusted_bounds_size.col_count
      eng.current_box.style_adjusted_bounds_size.row_count
      (buf.lines.drop buf.scroll_offset.row_index) 0 ops
    simpa using h

/-- Witness for C3 at the counterexample's configuration with `S = 1`. -/
theorem c3_render_content_bounds_witness :
    countPaint (render_content (fun _ => none)
      ⟨⟨0, ⟨0, 0⟩, ⟨10, 1⟩, none⟩, ⟨true, false⟩⟩
      ⟨[[['a']], [['b']], [['c']]], ⟨0, 0⟩, ⟨0, 0⟩⟩ [])
      ≤ countPaint [] + (1 + 1) * 1
    ∧ countMove (render_content (fun _ => none)
      ⟨⟨0, ⟨0, 0⟩, ⟨10, 1⟩, none⟩, ⟨true, false⟩⟩
      ⟨[[['a']], [['b']], [['c']]], ⟨0, 0⟩, ⟨0, 0⟩⟩ [])
      ≤ countMove [] + (1 + 1) :=
  c3_render_content_bounds (fun _ => none)
    ⟨⟨0, ⟨0, 0⟩, ⟨10, 1⟩, none⟩, ⟨true, false⟩⟩
    ⟨[[['a']], [['b']], [['c']]], ⟨0, 0⟩, ⟨0, 0⟩⟩ 1 [] (by decide)

/-- C4: the caret pass appends operations exactly when the engine's box id
holds focus, and then appends exactly two `MoveCursorPositionRelTo` ops at
the Raw caret relative to the box origin, one paint op with the reverse
attribute whose text is the grapheme cluster under the caret (or the fallback
`DEFAULT_CURSOR_CHAR = '▒'` when the caret is past end of line), and a final
`ResetColor`. -/
theorem c4_render_caret_ops (hf : HasFocus) (eng : EditorEngine)
    (buf : EditorBuffer) (ops : List RenderOp) :
    render_caret hf eng buf ops =
      ops ++ cond (hf eng.current_box.id)
        [RenderOp.MoveCursorPositionRelTo eng.current_box.style_adjusted_origin_pos
          (get_caret_raw buf),
         RenderOp.PaintTextWithAttributes
          ((string_at_caret buf).getD [DEFAULT_CURSOR_CHAR]) (some styleReverse),
         RenderOp.MoveCursorPositionRelTo eng.current_box.style_adjusted_origin_pos
          (get_caret_raw buf),
         RenderOp.ResetColor] [] := by
  unfold render_caret
  cases hfv : hf eng.current_box.id with
  | false => simp [hfv]
  | true => cases hsc : string_at_caret buf <;> simp [hfv, hsc]

/-- C5: for every buffer with `is_empty()`, `render_engine` returns the
empty-state pipeline: at `ZOrder::Normal`, the literal text
`"No content added"` painted at `(0,0)` relative to the box origin with red
foreground, and — exactly when the engine's box id holds focus — the emoji
painted one row below the origin bounded by the viewport row count; no
content or caret ops are emitted. -/
theorem c5_render_engine_empty_state (hf : HasFocus) (hi : Highlighter)
    (eng : EditorEngine) (buf : EditorBuffer) (box : EditorEngineFlexBox)
    (h : buf.is_empty = true) :
    (render_engine hf hi eng buf box).2 =
      [(ZOrder.Normal,
        [RenderOp.MoveCursorPositionRelTo box.style_adjusted_origin_pos ⟨0, 0⟩,
         RenderOp.ApplyColors (some styleRedFg),
         RenderOp.PaintTextWithAttributes "No content added".toList none,
         RenderOp.ResetColor])]
      ++ cond (hf box.id)
        [(ZOrder.Normal,
          [RenderOp.MoveCursorPositionRelTo box.style_adjusted_origin_pos
            ⟨0, min 1 box.style_adjusted_bounds_size.row_count⟩,
           RenderOp.PaintTextWithAttributes "👀".toList none,
           RenderOp.ResetColor])] [] := by
  unfold render_engine render_empty_state add_row_with_bounds
  rw [h]
  cases hfv : hf box.id <;> simp [hfv]

/-- Witness for C5 at a concrete empty buffer, focused box id 7, origin
`(1,1)` and viewport `10 × 4`. -/
theorem c5_render_engine_empty_state_witness :
    (render_engine (fun i => i == 7) (fun _ => none)
      ⟨⟨0, ⟨0, 0⟩, ⟨0, 0⟩, none⟩, ⟨true, true⟩⟩ ⟨[], ⟨0, 0⟩, ⟨0, 0⟩⟩
      ⟨7, ⟨1, 1⟩, ⟨10, 4⟩, none⟩).2 =
      [(ZOrder.Normal,
        [RenderOp.MoveCursorPositionRelTo ⟨1, 1⟩ ⟨0, 0⟩,
         RenderOp.ApplyColors (some styleRedFg),
         RenderOp.PaintTextWithAttributes "No content added".toList none,
         RenderOp.ResetColor]),
       (ZOrder.Normal,
        [RenderOp.MoveCursorPositionRelTo ⟨1, 1⟩ ⟨0, 1⟩,
         RenderOp.PaintTextWithAttributes "👀".toList none,
         RenderOp.ResetColor])] := by
  have h := c5_render_engine_empty_state (fun i => i == 7) (fun _ => none)
    ⟨⟨0, ⟨0, 0⟩, ⟨0, 0⟩, none⟩, ⟨true, true⟩⟩ ⟨[], ⟨0, 0⟩, ⟨0, 0⟩⟩
    ⟨7, ⟨1, 1⟩, ⟨10, 4⟩, none⟩ rfl
  exact h.trans (by decide)
